import Mathlib

/-!
A shallow embedding of the lophos counting-to-calling pipeline
(src/lophos), with theorems checking the specification's claims about it.

Conventions of the embedding:
- Python floats are modelled as rationals; genomic coordinates as integers
  (they can go negative before clamping); counts as naturals.
- External collaborators (the regex engine used for read-group matching,
  scipy's binomial test, numpy's square root, the normal survival function)
  are abstracted as function parameters.
- Process-global configuration (the compiled RG patterns, the pseudocount)
  is threaded as explicit parameters.
-/

/-- Allele assignment of a single alignment record
(strings "maternal" / "paternal" in the source; None is Option.none). -/
inductive Allele where
  | maternal
  | paternal
deriving DecidableEq, Repr, Fintype

/-- How a qualifying anchor-spanning pair is tallied in count_loops. -/
inductive PairClass where
  | maternalPair
  | paternalPair
  | ambiguousPair
deriving DecidableEq, Repr, Fintype

/-- An alignment record, with the fields the counters consult
(pysam.AlignedSegment interface, io/bam.py and core/counts_*.py). -/
structure Aln where
  is_unmapped : Bool
  mapping_quality : ℕ
  is_duplicate : Bool
  reference_start : ℤ
  reference_end : Option ℤ
  is_paired : Bool
  next_reference_id : ℤ
  next_reference_start : ℤ
  rg : Option String
deriving DecidableEq, Repr

/-- A pure model of an alignment-source handle: fetch returns the records
of a region, ref_name resolves a reference id to its chromosome name. -/
structure Bam where
  fetch : String → ℤ → ℤ → List Aln
  ref_name : ℤ → String

/-- io/bam.py read_is_duplicate. -/
def read_is_duplicate (aln : Aln) : Bool :=
  aln.is_duplicate

/-- io/bam.py allele_from_rg.  The two compiled regular expressions
MAT_RG_PATTERN / PAT_RG_PATTERN are abstracted as Boolean predicates
matM / matP on the tag string (re.Pattern.search). -/
def allele_from_rg (matM matP : String → Bool) (rg : Option String) : Option Allele :=
  match rg with
  | none => none
  | some s =>
    if matM s && !matP s then some Allele.maternal
    else if matP s then some Allele.paternal
    else none

/-- core/counts_loops.py lines 72-77: the if/elif/else that tallies a
qualifying pair from the two allele values a and b. -/
def classify_pair (a b : Option Allele) : PairClass :=
  if a = some Allele.maternal ∧ b = some Allele.maternal then PairClass.maternalPair
  else if a = some Allele.paternal ∧ b = some Allele.paternal then PairClass.paternalPair
  else PairClass.ambiguousPair

/-- A peak row of the feature table (io/bed.py read_bed); idx is the
pandas row index, kept by iloc slicing in the parallel dispatcher. -/
structure Peak where
  idx : ℕ
  chrom : String
  start : ℤ
  stop : ℤ
  name : Option String
deriving DecidableEq, Repr

/-- One output row of count_peaks. -/
structure PeakRow where
  peak_id : String
  chrom : String
  start : ℤ
  stop : ℤ
  maternal : ℕ
  paternal : ℕ
deriving DecidableEq, Repr

/-- A loop row of the feature table (io/bedpe.py read_bedpe). -/
structure Loop where
  idx : ℕ
  chrom1 : String
  start1 : ℤ
  end1 : ℤ
  chrom2 : String
  start2 : ℤ
  end2 : ℤ
  name : Option String
deriving DecidableEq, Repr

/-- One output row of count_loops. -/
structure LoopRow where
  loop_id : String
  chrom1 : String
  start1 : ℤ
  end1 : ℤ
  chrom2 : String
  start2 : ℤ
  end2 : ℤ
  maternal_pairs : ℕ
  paternal_pairs : ℕ
  ambiguous_pairs : ℕ
deriving DecidableEq, Repr

/-- core/counts_peaks.py _iter_overlaps: fetch with the start coordinate
clamped at zero, then filter by mapped / mapq / duplicate status and by
overlap with the unclamped window [start, stop). -/
def _iter_overlaps (bam : Bam) (chrom : String) (start stop : ℤ)
    (mapq : ℕ) (keep_dups : Bool) : List Aln :=
  (bam.fetch chrom (max 0 start) stop).filter fun aln =>
    !aln.is_unmapped && decide (mapq ≤ aln.mapping_quality) &&
    (keep_dups || ! read_is_duplicate aln) &&
    (match aln.reference_end with
     | none => false
     | some ae => decide (aln.reference_start < stop) && decide (start < ae))

/-- The tally loop of count_peaks: Unknown assignments are dropped. -/
def tally_peak (matM matP : String → Bool) (alns : List Aln) : ℕ × ℕ :=
  alns.foldl
    (fun mp aln =>
      match allele_from_rg matM matP aln.rg with
      | some Allele.maternal => (mp.1 + 1, mp.2)
      | some Allele.paternal => (mp.1, mp.2 + 1)
      | none => mp)
    (0, 0)

/-- core/counts_peaks.py count_peaks, one row: center by floor division,
window [center - window_bp, center + window_bp), count alleles over the
overlapping records. -/
def count_one_peak (bam : Bam) (matM matP : String → Bool)
    (mapq window_bp : ℕ) (keep_dups : Bool) (pk : Peak) : PeakRow :=
  let center := Int.fdiv (pk.start + pk.stop) 2
  let wstart := center - (window_bp : ℤ)
  let wend := center + (window_bp : ℤ)
  let mp := tally_peak matM matP (_iter_overlaps bam pk.chrom wstart wend mapq keep_dups)
  { peak_id := pk.name.getD ("peak_" ++ toString pk.idx)
    chrom := pk.chrom
    start := pk.start
    stop := pk.stop
    maternal := mp.1
    paternal := mp.2 }

/-- core/counts_peaks.py count_peaks over the whole table (a per-row map,
order preserving).  The feature list is the last parameter so that a
partial application is the counter function handed to the dispatcher. -/
def count_peaks (bam : Bam) (matM matP : String → Bool)
    (mapq window_bp : ℕ) (keep_dups : Bool) (peaks : List Peak) : List PeakRow :=
  peaks.map (count_one_peak bam matM matP mapq window_bp keep_dups)

/-- core/counts_loops.py _in_interval: pos within [start, stop). -/
def _in_interval (pos start stop : ℤ) : Bool :=
  decide (start ≤ pos) && decide (pos < stop)

/-- The fetch start coordinate used by count_loops for anchor 1:
the padded anchor start clamped at zero. -/
def loop_fetch_start (s1 pad : ℤ) : ℤ :=
  max 0 (s1 - pad)

/-- The qualifying-record filter of count_loops (lines 58-68): mapped,
mapq, duplicate status, paired with a valid mate reference, and mate
position inside the padded anchor-2 window on the matching chromosome. -/
def loop_pair_qualifies (bam : Bam) (lp : Loop) (pad : ℤ) (mapq : ℕ)
    (keep_dups : Bool) (aln : Aln) : Bool :=
  !aln.is_unmapped && decide (mapq ≤ aln.mapping_quality) &&
  (keep_dups || ! read_is_duplicate aln) &&
  (aln.is_paired && decide (0 ≤ aln.next_reference_id)) &&
  (bam.ref_name aln.next_reference_id == lp.chrom2) &&
  _in_interval aln.next_reference_start (lp.start2 - pad) (lp.end2 + pad)

/-- The pair alleles consulted by count_loops lines 69-71: both a and b
are derived from the same anchor-1 record's tag (the mate record is not
inspected independently). -/
def loop_pair_alleles (matM matP : String → Bool) (aln : Aln) :
    Option Allele × Option Allele :=
  (allele_from_rg matM matP aln.rg, allele_from_rg matM matP aln.rg)

/-- The tally loop of count_loops over the qualifying records. -/
def tally_loops (matM matP : String → Bool) (alns : List Aln) : ℕ × ℕ × ℕ :=
  alns.foldl
    (fun acc aln =>
      let ab := loop_pair_alleles matM matP aln
      match classify_pair ab.1 ab.2 with
      | PairClass.maternalPair => (acc.1 + 1, acc.2.1, acc.2.2)
      | PairClass.paternalPair => (acc.1, acc.2.1 + 1, acc.2.2)
      | PairClass.ambiguousPair => (acc.1, acc.2.1, acc.2.2 + 1))
    (0, 0, 0)

/-- core/counts_loops.py count_loops, one row. -/
def count_one_loop (bam : Bam) (matM matP : String → Bool)
    (mapq : ℕ) (anchor_pad : ℤ) (keep_dups : Bool) (lp : Loop) : LoopRow :=
  let fetched := bam.fetch lp.chrom1 (loop_fetch_start lp.start1 anchor_pad)
      (lp.end1 + anchor_pad)
  let qual := fetched.filter (loop_pair_qualifies bam lp anchor_pad mapq keep_dups)
  let t := tally_loops matM matP qual
  { loop_id := lp.name.getD ("loop_" ++ toString lp.idx)
    chrom1 := lp.chrom1
    start1 := lp.start1
    end1 := lp.end1
    chrom2 := lp.chrom2
    start2 := lp.start2
    end2 := lp.end2
    maternal_pairs := t.1
    paternal_pairs := t.2.1
    ambiguous_pairs := t.2.2 }

/-- core/counts_loops.py count_loops over the whole table. -/
def count_loops (bam : Bam) (matM matP : String → Bool)
    (mapq : ℕ) (anchor_pad : ℤ) (keep_dups : Bool) (loops : List Loop) : List LoopRow :=
  loops.map (count_one_loop bam matM matP mapq anchor_pad keep_dups)

/-- utils/fdr.py bh_fdr, the loop body: walk the value-sorted indexed
p-values in ascending rank order, keeping the running minimum prev
(initialized to 1.0) of the adjusted values pv * n / rank, and scatter
prev back to each original index. -/
def bh_fdr_go (n : ℕ) : List (ℕ × ℚ) → ℕ → ℚ → List ℚ → List ℚ
  | [], _, _, fdr => fdr
  | (idx, pv) :: rest, rank, prev, fdr =>
    let q := pv * (n : ℚ) / (rank : ℚ)
    let prev2 := min prev q
    bh_fdr_go n rest (rank + 1) prev2 (fdr.set idx prev2)

/-- utils/fdr.py bh_fdr.  Python's sorted(enumerate(p), key = value) is a
stable sort by p-value, modelled by insertionSort on the value component
(insertion sort is stable, so it yields the same permutation). -/
def bh_fdr (pvals : List ℚ) : List ℚ :=
  let n := pvals.length
  let indexed := List.insertionSort (fun a b : ℕ × ℚ => a.2 ≤ b.2) pvals.enum
  bh_fdr_go n indexed 1 1 (List.replicate n 0)

/-- Minimum of a list of rationals (head-seeded fold; 0 on empty input,
which is never reached on a nonempty suffix). -/
def list_min : List ℚ → ℚ
  | [] => 0
  | x :: xs => xs.foldl min x

/-- Modelled from the spec claim for comparison with bh_fdr: with
p-values ranked ascending, the feature at rank i receives
min over j greater or equal to i of p_(j) * n / j — the
minimum-of-suffix adjusted value at its rank — scattered back to its
original position. -/
def bh_fdr_spec (pvals : List ℚ) : List ℚ :=
  let n := pvals.length
  let indexed := List.insertionSort (fun a b : ℕ × ℚ => a.2 ≤ b.2) pvals.enum
  let adjusted := indexed.enum.map (fun rp => rp.2.2 * (n : ℚ) / ((rp.1 + 1 : ℕ) : ℚ))
  (indexed.enum.map (fun rp => (rp.2.1, list_min (adjusted.drop rp.1)))).foldl
    (fun fdr iq => fdr.set iq.1 iq.2) (List.replicate n 0)

/-- core/calls.py BiasThresholds (defaults from the dataclass). -/
structure BiasThresholds where
  min_reads : ℕ := 5
  fdr : ℚ := 5 / 100
  min_fold : ℚ := 3 / 2
  min_abs_log2 : ℚ := 0
  max_ambiguous_frac : ℚ := 1
deriving DecidableEq, Repr

/-- Python's int() applied to a float: truncation toward zero. -/
def py_int (x : ℚ) : ℤ :=
  if 0 ≤ x then ⌊x⌋ else ⌈x⌉

/-- core/calls.py _classify, lines 73-100, with the log2 ratio supplied
by the caller (both pipeline callers pass the precomputed column; the
internal-recomputation default branch is never taken by them). -/
def _classify (m p : ℕ) (q : ℚ) (thr : BiasThresholds)
    (log2_ratio : ℚ) (ambiguous_frac : Option ℚ) : String :=
  let total := m + p
  if total < thr.min_reads then "Undetermined"
  else if (match ambiguous_frac with
           | some af => decide (af > thr.max_ambiguous_frac)
           | none => false) then "Undetermined"
  else if q > thr.fdr then "Balanced"
  else if |log2_ratio| < thr.min_abs_log2 then "Balanced"
  else if (m : ℤ) ≥ max 1 (py_int ((p : ℚ) * thr.min_fold)) then "Maternal"
  else if (p : ℤ) ≥ max 1 (py_int ((m : ℚ) * thr.min_fold)) then "Paternal"
  else "Balanced"

/-- Modelled from the spec claim for comparison with _classify: the seven
rules in the stated first-match-wins order, with floor in rules 5 and 6. -/
def classify_spec (m p : ℕ) (q : ℚ) (thr : BiasThresholds)
    (log2_ratio : ℚ) (ambiguous_frac : Option ℚ) : String :=
  if m + p < thr.min_reads then "Undetermined"
  else if (match ambiguous_frac with
           | some af => decide (af > thr.max_ambiguous_frac)
           | none => false) then "Undetermined"
  else if q > thr.fdr then "Balanced"
  else if |log2_ratio| < thr.min_abs_log2 then "Balanced"
  else if (m : ℤ) ≥ max 1 ⌊(p : ℚ) * thr.min_fold⌋ then "Maternal"
  else if (p : ℤ) ≥ max 1 ⌊(m : ℚ) * thr.min_fold⌋ then "Paternal"
  else "Balanced"

/-- core/stats.py compute_peak_stats, the per-feature p-value expression:
scipy's two-sided binomial test (abstracted as binom k n) when the total
is positive, 1.0 by convention otherwise. -/
def peak_p_value (binom : ℕ → ℕ → ℚ) (m p : ℕ) : ℚ :=
  if m + p > 0 then binom m (m + p) else 1

/-- core/stats.py compute_loop_stats, lines 76-82: same convention for
the loop variant. -/
def loop_p_value (binom : ℕ → ℕ → ℚ) (m p : ℕ) : ℚ :=
  let total := m + p
  if total > 0 then binom m total else 1

/-- core/stats.py _log2_ratio with the pseudocount as a parameter
(the source reads the process-global constants.PSEUDOCOUNT, 1.0 by
default per cli.py). -/
noncomputable def _log2_ratio (c : ℝ) (m p : ℕ) : ℝ :=
  Real.logb 2 (((m : ℝ) + c) / ((p : ℝ) + c))

/-- cli.py _count_parallel, the chunking of the parallel branch:
chunk_size = ceil(n / threads); for each i < threads the slice
df.iloc[i * cs : min((i + 1) * cs, n)], skipped when empty, in chunk
index order. -/
def dispatch_chunks {α : Type} (df : List α) (threads : ℕ) : List (List α) :=
  let n := df.length
  let cs := (n + threads - 1) / threads
  (List.range threads).filterMap (fun i =>
    let s := i * cs
    let e := min ((i + 1) * cs) n
    if s < e then some ((df.drop s).take (e - s)) else none)

/-- cli.py _count_parallel: sequential when threads is at most 1 or the
table is empty; otherwise count each chunk and concatenate the results
in chunk index order (results is keyed by chunk index and read back in
sorted key order, never completion order). -/
def _count_parallel {α β : Type} (counter : List α → List β)
    (df : List α) (threads : ℕ) : List β :=
  if threads ≤ 1 ∨ df.length = 0 then counter df
  else ((dispatch_chunks df threads).map counter).flatten

/-- The chunks a dispatch call actually processes: the whole table on
the sequential path, the slices on the parallel path. -/
def all_chunks {α : Type} (df : List α) (threads : ℕ) : List (List α) :=
  if threads ≤ 1 ∨ df.length = 0 then [df] else dispatch_chunks df threads

/-- Sequential collection of fallible chunk results, mirroring the
fut.result() loop of cli.py lines 156-158: the first failing chunk in
submission (= chunk index) order raises; no retry, no partial list. -/
def collectE {α β ε : Type} (counter : α → Except ε β) : List α → Except ε (List β)
  | [] => Except.ok []
  | x :: xs =>
    match counter x with
    | Except.error e => Except.error e
    | Except.ok y =>
      match collectE counter xs with
      | Except.error e => Except.error e
      | Except.ok ys => Except.ok (y :: ys)

/-- cli.py _count_parallel with a counter that can fail (a Python
exception is an Except.error): any worker failure aborts the whole call. -/
def _count_parallelE {α β ε : Type} (counter : List α → Except ε (List β))
    (df : List α) (threads : ℕ) : Except ε (List β) :=
  if threads ≤ 1 ∨ df.length = 0 then counter df
  else
    match collectE counter (dispatch_chunks df threads) with
    | Except.error e => Except.error e
    | Except.ok parts => Except.ok parts.flatten

/-- Population mean of a list of rationals (np.mean). -/
def pop_mean (xs : List ℚ) : ℚ :=
  xs.sum / (xs.length : ℚ)

/-- Population variance of a list of rationals (ddof = 0), the square of
np.std before the square root is taken. -/
def pop_var (xs : List ℚ) : ℚ :=
  ((xs.map (fun x => (x - pop_mean xs) ^ 2)).sum) / (xs.length : ℚ)

/-- core/validate_local.py lines 60-62: std = np.std(diff, ddof=0)
(the float square root abstracted as sqrt), replaced by 1.0 when it is
computed as exactly zero. -/
def local_std (sqrt : ℚ → ℚ) (diff : List ℚ) : ℚ :=
  let std0 := sqrt (pop_var diff)
  if std0 = 0 then 1 else std0

/-- core/validate_local.py run_local_validation.  The table is a list of
rows carrying the m and p columns when has_mp is true; sf abstracts
scipy.stats.norm.sf.  Returns the appended (z, p) column pair per row. -/
def run_local_validation (sqrt sf : ℚ → ℚ) (has_mp : Bool)
    (rows : List (ℚ × ℚ)) : List (ℚ × ℚ) :=
  if !has_mp then rows.map (fun _ => (0, 1))
  else
    let diff := rows.map (fun r => r.1 - r.2)
    let mean := pop_mean diff
    let std := local_std sqrt diff
    diff.map (fun d =>
      let z := (d - mean) / std
      (z, 2 * sf |z|))

/-- The column effect of run_local_validation: both code paths append
exactly the two local-enrichment columns. -/
def run_local_validation_cols (cols : List String) : List String :=
  cols ++ ["local_enrichment_z", "local_enrichment_p"]

/-- cli.py perform_phasing (lines 318-424) at the loop-table column
level: the sequential branch (threads at most 1) produces the loop calls
and returns; only the multi-threaded branch reaches the
validate_loops == "local" check and the Local Validator. -/
def perform_phasing_loop_cols (threads : ℕ) (validate_loops : String)
    (loop_calls_cols : List String) : List String :=
  if threads ≤ 1 then loop_calls_cols
  else if validate_loops = "local" then run_local_validation_cols loop_calls_cols
  else loop_calls_cols

/-- The loop calls table columns as produced by count_loops,
compute_loop_stats and call_bias_for_loops, before any validation. -/
def loop_calls_base_cols : List String :=
  ["loop_id", "chrom1", "start1", "end1", "chrom2", "start2", "end2",
   "m", "p", "ambiguous_pairs", "total_pairs", "ambiguous_frac",
   "log2_ratio_pairs", "p_value_pairs", "fdr_pairs", "bias_call"]

/-! Helper lemmas. -/

/-- Guarded by max 1, Python truncation toward zero agrees with floor. -/
theorem max_one_py_int (x : ℚ) : max 1 (py_int x) = max 1 ⌊x⌋ := by
  unfold py_int
  split
  · rfl
  · rename_i hx
    push_neg at hx
    have h1 : ⌈x⌉ ≤ 0 := Int.ceil_le.mpr (by exact_mod_cast hx.le)
    have h2 : ⌊x⌋ ≤ 0 := le_trans (Int.floor_le_ceil x) h1
    rw [max_eq_left (by omega), max_eq_left (by omega)]

/-- A successful collectE means every element succeeded. -/
theorem collectE_ok {α β ε : Type} {f : α → Except ε β} :
    ∀ {l : List α} {ys : List β}, collectE f l = Except.ok ys →
      ∀ x ∈ l, ∃ y, f x = Except.ok y := by
  intro l
  induction l with
  | nil => intro ys _ x hx; cases hx
  | cons a l ih =>
    intro ys h x hx
    unfold collectE at h
    cases ha : f a with
    | error e => rw [ha] at h; cases h
    | ok y =>
      rw [ha] at h
      cases hz : collectE f l with
      | error e => rw [hz] at h; cases h
      | ok zs =>
        rcases List.mem_cons.mp hx with rfl | hmem
        · exact ⟨y, ha⟩
        · exact ih hz x hmem

/-- A failing element makes collectE fail. -/
theorem collectE_error_of_mem {α β ε : Type} {f : α → Except ε β} :
    ∀ {l : List α} {x : α}, x ∈ l → ∀ {e : ε}, f x = Except.error e →
      ∃ e2, collectE f l = Except.error e2 := by
  intro l
  induction l with
  | nil => intro x hx; cases hx
  | cons a l ih =>
    intro x hx e he
    rcases List.mem_cons.mp hx with rfl | hmem
    · exact ⟨e, by unfold collectE; rw [he]⟩
    · cases ha : f a with
      | error e3 => exact ⟨e3, by unfold collectE; rw [ha]⟩
      | ok y =>
        obtain ⟨e2, h2⟩ := ih hmem he
        exact ⟨e2, by unfold collectE; rw [ha, h2]⟩

/-- Flattening contiguous cs-sized slices of the range prefix recovers
the corresponding take. -/
theorem flatten_map_slices {α : Type} (l : List α) (cs : ℕ) :
    ∀ t : ℕ,
      ((List.range t).map (fun i => (l.drop (i * cs)).take cs)).flatten
        = l.take (t * cs) := by
  intro t
  induction t with
  | zero => simp
  | succ t ih =>
    rw [List.range_succ, List.map_append, List.flatten_append, ih]
    simp only [List.map_cons, List.map_nil, List.flatten_cons, List.flatten_nil,
      List.append_nil]
    rw [Nat.succ_mul, List.take_add]

/-- Ceiling division covers the whole list: t * ceil(n / t) is at least n. -/
theorem ceil_mul_ge (n t : ℕ) (ht : 0 < t) : n ≤ t * ((n + t - 1) / t) := by
  have hdm : t * ((n + t - 1) / t) + (n + t - 1) % t = n + t - 1 :=
    Nat.div_add_mod _ _
  have hlt : (n + t - 1) % t < t := Nat.mod_lt _ ht
  omega

/-- Flatten of a filterMap equals flatten of a map when the skipped
entries are exactly the empty ones. -/
theorem flatten_filterMap_eq {α β : Type} (L : List α)
    (g : α → Option (List β)) (h : α → List β)
    (hc : ∀ a ∈ L, g a = some (h a) ∨ (g a = none ∧ h a = [])) :
    (L.filterMap g).flatten = (L.map h).flatten := by
  induction L with
  | nil => rfl
  | cons a L ih =>
    have ha := hc a (List.mem_cons_self a L)
    have hrest : ∀ b ∈ L, g b = some (h b) ∨ (g b = none ∧ h b = []) :=
      fun b hb => hc b (List.mem_cons_of_mem a hb)
    rcases ha with ha | ⟨ha, he⟩
    · rw [List.filterMap_cons, ha, List.map_cons, List.flatten_cons,
        List.flatten_cons, ih hrest]
    · rw [List.filterMap_cons, ha, List.map_cons, List.flatten_cons, he,
        List.nil_append, ih hrest]

/-- Concatenating the dispatcher's chunks in index order recovers the
input table. -/
theorem dispatch_chunks_flatten {α : Type} (df : List α) (t : ℕ)
    (ht : 2 ≤ t) (hn : 1 ≤ df.length) :
    (dispatch_chunks df t).flatten = df := by
  simp only [dispatch_chunks]
  set n := df.length with hn_def
  set cs := (n + t - 1) / t with hcs_def
  have hcs : 1 ≤ cs := by
    rw [hcs_def, Nat.one_le_div_iff (by omega)]
    omega
  have hcover : n ≤ t * cs := ceil_mul_ge n t (by omega)
  rw [flatten_filterMap_eq _ _ (fun i => (df.drop (i * cs)).take cs)]
  · rw [flatten_map_slices, List.take_of_length_le (by omega)]
  · intro i _
    have hmul : (i + 1) * cs = i * cs + cs := by ring
    by_cases hlt : i * cs < min ((i + 1) * cs) n
    · left
      rw [if_pos hlt]
      have hle : i * cs ≤ n := le_of_lt (lt_of_lt_of_le hlt (min_le_right _ _))
      have hlen : (df.drop (i * cs)).length = n - i * cs := by
        rw [List.length_drop]
      have htake : (df.drop (i * cs)).take (min ((i + 1) * cs) n - i * cs)
          = (df.drop (i * cs)).take cs := by
        rw [List.take_eq_take]
        rw [hlen]
        rcases min_cases ((i + 1) * cs) n with ⟨hmin, hord⟩ | ⟨hmin, hord⟩ <;>
          rw [hmin] <;> omega
      rw [htake]
    · right
      refine ⟨by rw [if_neg hlt], ?_⟩
      have hge : n ≤ i * cs := by
        rcases Nat.lt_or_ge (i * cs) n with h | h
        · exfalso
          apply hlt
          rcases min_cases ((i + 1) * cs) n with ⟨hmin, hord⟩ | ⟨hmin, hord⟩ <;>
            rw [hmin] <;> omega
        · exact h
      have hdrop : df.drop (i * cs) = [] := List.drop_eq_nil_of_le (by omega)
      rw [hdrop]
      simp

/-- The parallel dispatcher applied to a per-row map is the map itself. -/
theorem count_parallel_map {α β : Type} (f : α → β) (df : List α) (t : ℕ) :
    _count_parallel (List.map f) df t = List.map f df := by
  unfold _count_parallel
  split
  · rfl
  · rename_i hg
    push_neg at hg
    obtain ⟨ht, hn⟩ := hg
    rw [← List.map_flatten, dispatch_chunks_flatten df t (by omega) (by omega)]

/-! Claim theorems. -/

/-- C1 (code bug evidence): bh_fdr is not the Benjamini–Hochberg step-up
correction.  On the p-values [0.4, 0.41] the code returns [0.8, 0.41]
(its running minimum is accumulated from rank 1 upward, a prefix
minimum), while the minimum-of-suffix rule of the claim gives
[0.41, 0.41]; read in ascending-p order the code's output (0.8, 0.41) is
strictly decreasing, violating the claimed monotone non-decreasing
property. -/
theorem C1_bh_fdr_prefix_min_bug :
    bh_fdr [2/5, 41/100] = [4/5, 41/100] ∧
    bh_fdr_spec [2/5, 41/100] = [41/100, 41/100] ∧
    ¬ bh_fdr [2/5, 41/100] = bh_fdr_spec [2/5, 41/100] ∧
    ¬ ((4 : ℚ)/5 ≤ 41/100) := by
  have h1 : bh_fdr [2/5, 41/100] = [4/5, 41/100] := by
    norm_num [bh_fdr, bh_fdr_go, List.insertionSort, List.orderedInsert, List.enum,
      List.enumFrom, min_def, List.replicate, List.set]
  have h2 : bh_fdr_spec [2/5, 41/100] = [41/100, 41/100] := by
    norm_num [bh_fdr_spec, List.insertionSort, List.orderedInsert, List.enum,
      List.enumFrom, list_min, min_def, List.replicate, List.set]
  refine ⟨h1, h2, ?_, by norm_num⟩
  rw [h1, h2]
  intro h
  have := List.head_eq_of_cons_eq h
  norm_num at this

/-- C2 (code bug evidence): in perform_phasing the Local Validator is
reached only in the multi-threaded branch.  With the defaults
threads = 1 and validate_loops = "local" the emitted loop table keeps
exactly the base columns and never gains local_enrichment_z /
local_enrichment_p, while with threads = 2 it does. -/
theorem C2_validator_skipped_when_sequential :
    perform_phasing_loop_cols 1 "local" loop_calls_base_cols = loop_calls_base_cols ∧
    "local_enrichment_z" ∉ perform_phasing_loop_cols 1 "local" loop_calls_base_cols ∧
    "local_enrichment_p" ∉ perform_phasing_loop_cols 1 "local" loop_calls_base_cols ∧
    "local_enrichment_z" ∈ perform_phasing_loop_cols 2 "local" loop_calls_base_cols ∧
    "local_enrichment_p" ∈ perform_phasing_loop_cols 2 "local" loop_calls_base_cols := by
  refine ⟨rfl, by decide, by decide, by decide, by decide⟩

/-- C3 (code bug evidence): on an ambiguous dual match — a tag matched
by both the maternal and the paternal pattern — allele_from_rg returns
the Paternal assignment, not the claimed Maternal one: its maternal
branch requires the tag NOT to match the paternal pattern, so a dual
match falls through to the paternal branch. -/
theorem C3_dual_match_resolves_paternal :
    allele_from_rg (fun _ => true) (fun _ => true) (some "HP1") = some Allele.paternal ∧
    allele_from_rg (fun _ => true) (fun _ => true) (some "HP1") ≠ some Allele.maternal := by
  exact ⟨rfl, by decide⟩

/-- C4: the pair classification of count_loops tallies a qualifying pair
as ambiguous exactly when the two allele values disagree or either one
is unresolved, as maternal exactly when both are Maternal, and as
paternal exactly when both are Paternal; and both allele values are
derived from the same anchor-side record's tag. -/
theorem C4_pair_classification :
    (∀ a b : Option Allele,
      (classify_pair a b = PairClass.ambiguousPair ↔ (a ≠ b ∨ a = none ∨ b = none)) ∧
      (classify_pair a b = PairClass.maternalPair ↔
        (a = some Allele.maternal ∧ b = some Allele.maternal)) ∧
      (classify_pair a b = PairClass.paternalPair ↔
        (a = some Allele.paternal ∧ b = some Allele.paternal))) ∧
    (∀ (matM matP : String → Bool) (aln : Aln),
      (loop_pair_alleles matM matP aln).1 = (loop_pair_alleles matM matP aln).2) := by
  constructor
  · decide
  · intro matM matP aln
    rfl

/-- C8: with zero total evidence both statistical-tester variants return
the conventional p-value 1 instead of consulting the binomial test, and
the log2 ratio with the default pseudocount 1 is exactly
log2((0+1)/(0+1)) = 0. -/
theorem C8_zero_evidence_conventions :
    ∀ binom : ℕ → ℕ → ℚ,
      peak_p_value binom 0 0 = 1 ∧
      loop_p_value binom 0 0 = 1 ∧
      _log2_ratio 1 0 0 = 0 := by
  intro binom
  refine ⟨rfl, rfl, ?_⟩
  unfold _log2_ratio
  norm_num

/-- C5: the bias classifier evaluates its seven rules in the claimed
first-match-wins order (coverage, ambiguity, significance, effect size,
maternal fold, paternal fold, balanced default) — its decision equals
the rule list written from the claim, with floor in the fold rules —
and it always returns exactly one of the four call categories. -/
theorem C5_classifier_rule_order :
    ∀ (m p : ℕ) (q : ℚ) (thr : BiasThresholds) (r : ℚ) (amb : Option ℚ),
      _classify m p q thr r amb = classify_spec m p q thr r amb ∧
      (_classify m p q thr r amb = "Maternal" ∨ _classify m p q thr r amb = "Paternal" ∨
       _classify m p q thr r amb = "Balanced" ∨
       _classify m p q thr r amb = "Undetermined") := by
  intro m p q thr r amb
  constructor
  · simp only [_classify, classify_spec]
    rw [max_one_py_int, max_one_py_int]
  · simp only [_classify]
    split_ifs <;> simp

/-- C9: the Local Validator degrades instead of failing: with the m/p
columns missing every row gets z = 0 and p = 1; the standard deviation
it divides by is never zero (a zero value is replaced by 1); and a
single-loop table — population standard deviation computed as exactly
0 — yields z = 0 and p = 2 * sf(0) = 1. -/
theorem C9_local_validation_degrades :
    ∀ (sqrt sf : ℚ → ℚ) (rows : List (ℚ × ℚ)) (m p : ℚ),
      run_local_validation sqrt sf false rows = rows.map (fun _ => (0, 1)) ∧
      (∀ diff : List ℚ, local_std sqrt diff ≠ 0) ∧
      (sqrt 0 = 0 → sf 0 = 1/2 →
        run_local_validation sqrt sf true [(m, p)] = [(0, 1)]) := by
  intro sqrt sf rows m p
  refine ⟨by simp [run_local_validation], ?_, ?_⟩
  · intro diff
    unfold local_std
    by_cases h : sqrt (pop_var diff) = 0
    · simp [h]
    · simp [h]
  · intro h0 hsf
    simp only [run_local_validation, Bool.not_true, Bool.false_eq_true, if_false]
    have hvar : pop_var [m - p] = 0 := by
      simp [pop_var, pop_mean]
    have hstd : local_std sqrt [m - p] = 1 := by
      unfold local_std
      rw [hvar, h0]
      simp
    simp [pop_mean, hstd, hsf]

/-- C10: both evidence counters clamp the fetch start at zero — a record
is iterated by the peak counter exactly when it lies in the fetch issued
at max(0, window start) and passes the filters, with the overlap test
still using the unclamped (possibly negative) window start, and the
window end unclamped; the loop counter's anchor-1 fetch start is
max(0, start1 - pad), never negative. -/
theorem C10_fetch_start_clamped :
    ∀ (bam : Bam) (chrom : String) (s e : ℤ) (mq : ℕ) (kd : Bool) (aln : Aln),
      (aln ∈ _iter_overlaps bam chrom s e mq kd ↔
        (aln ∈ bam.fetch chrom (max 0 s) e ∧ aln.is_unmapped = false ∧
          mq ≤ aln.mapping_quality ∧ (kd = true ∨ aln.is_duplicate = false) ∧
          ∃ ae, aln.reference_end = some ae ∧ aln.reference_start < e ∧ s < ae)) ∧
      (0 : ℤ) ≤ max 0 s ∧
      (∀ s1 pad : ℤ,
        loop_fetch_start s1 pad = max 0 (s1 - pad) ∧
        (0 : ℤ) ≤ loop_fetch_start s1 pad) := by
  intro bam chrom s e mq kd aln
  refine ⟨?_, le_max_left 0 s, fun s1 pad => ⟨rfl, le_max_left 0 (s1 - pad)⟩⟩
  cases h : aln.reference_end with
  | none =>
    simp [_iter_overlaps, List.mem_filter, h, read_is_duplicate]
  | some ae =>
    simp [_iter_overlaps, List.mem_filter, h, read_is_duplicate,
      Bool.or_eq_true, Bool.not_eq_true', and_assoc]

/-- C6: counting through the parallel dispatcher with any worker count
equals sequential counting, for both the peak and the loop counter —
the ceiling-division chunks concatenated by chunk index reproduce the
per-row map — and both counters emit exactly one output row per input
feature row, in input order. -/
theorem C6_parallel_equals_sequential :
    ∀ (bam : Bam) (matM matP : String → Bool) (mapq window_bp : ℕ)
      (pad : ℤ) (kd : Bool) (peaks : List Peak) (loops : List Loop) (threads : ℕ),
      _count_parallel (count_peaks bam matM matP mapq window_bp kd) peaks threads
        = count_peaks bam matM matP mapq window_bp kd peaks ∧
      _count_parallel (count_loops bam matM matP mapq pad kd) loops threads
        = count_loops bam matM matP mapq pad kd loops ∧
      (count_peaks bam matM matP mapq window_bp kd peaks).length = peaks.length ∧
      (count_loops bam matM matP mapq pad kd loops).length = loops.length := by
  intro bam matM matP mapq window_bp pad kd peaks loops threads
  refine ⟨?_, ?_, by simp [count_peaks], by simp [count_loops]⟩
  · exact count_parallel_map (count_one_peak bam matM matP mapq window_bp kd) peaks threads
  · exact count_parallel_map (count_one_loop bam matM matP mapq pad kd) loops threads

/-- C7: a failing chunk makes the whole dispatch call fail — a worker
error in any processed chunk yields an error result for the dispatch,
and a successful dispatch means every chunk succeeded and the output is
the concatenation of all chunk results in chunk order (no retry, no
partial result set). -/
theorem C7_worker_failure_propagates :
    ∀ (α β ε : Type) (counter : List α → Except ε (List β)) (df : List α) (t : ℕ),
      (∀ rs, _count_parallelE counter df t = Except.ok rs →
        ∃ parts, collectE counter (all_chunks df t) = Except.ok parts ∧
          rs = parts.flatten) ∧
      (∀ chunk ∈ all_chunks df t, ∀ e, counter chunk = Except.error e →
        ∃ e2, _count_parallelE counter df t = Except.error e2) := by
  intro α β ε counter df t
  by_cases hg : t ≤ 1 ∨ df.length = 0
  · constructor
    · intro rs hok
      rw [_count_parallelE, if_pos hg] at hok
      refine ⟨[rs], ?_, by simp⟩
      rw [all_chunks, if_pos hg]
      unfold collectE
      rw [hok]
      rfl
    · intro chunk hmem e he
      rw [all_chunks, if_pos hg] at hmem
      rcases List.mem_singleton.mp hmem with rfl
      exact ⟨e, by rw [_count_parallelE, if_pos hg, he]⟩
  · constructor
    · intro rs hok
      rw [_count_parallelE, if_neg hg] at hok
      rw [all_chunks, if_neg hg]
      cases hc : collectE counter (dispatch_chunks df t) with
      | error e => rw [hc] at hok; cases hok
      | ok parts =>
        rw [hc] at hok
        cases hok
        exact ⟨parts, rfl, rfl⟩
    · intro chunk hmem e he
      rw [all_chunks, if_neg hg] at hmem
      obtain ⟨e2, h2⟩ := collectE_error_of_mem hmem he
      refine ⟨e2, ?_⟩
      rw [_count_parallelE, if_neg hg, h2]

/-- Witness for C7 at concrete inputs: a counter that fails on its chunk
makes the one-chunk dispatch fail, and an always-ok counter lets the
success clause recover the flattened chunk results. -/
theorem C7_worker_failure_propagates_witness :
    (∃ e2, _count_parallelE
        (fun _ : List ℕ => (Except.error "boom" : Except String (List ℕ)))
        [0] 1 = Except.error e2) ∧
    (∃ parts, collectE (fun l : List ℕ => (Except.ok (l.map (· + 1)) : Except String (List ℕ)))
        (all_chunks [0] 1) = Except.ok parts ∧ [1] = parts.flatten) := by
  constructor
  · exact (C7_worker_failure_propagates ℕ ℕ String _ [0] 1).2 [0]
      (by rw [all_chunks, if_pos (by omega)]; exact List.mem_singleton.mpr rfl)
      "boom" rfl
  · exact (C7_worker_failure_propagates ℕ ℕ String _ [0] 1).1 [1] rfl

/-- Witness for C9 at concrete inputs: with sqrt 0 = 0 and sf 0 = 1/2
discharged by the constant models, a single-loop table with m = 3 and
p = 1 validates to z = 0 and p = 1, and a two-row table without the m/p
columns degrades to (0, 1) per row. -/
theorem C9_local_validation_degrades_witness :
    run_local_validation (fun _ => 0) (fun _ => 1/2) true [(3, 1)] = [(0, 1)] ∧
    run_local_validation (fun _ => 0) (fun _ => 1/2) false [(3, 1), (2, 2)]
      = [(0, 1), (0, 1)] := by
  constructor
  · exact (C9_local_validation_degrades (fun _ => 0) (fun _ => 1/2) [] 3 1).2.2 rfl rfl
  · exact (C9_local_validation_degrades (fun _ => 0) (fun _ => 1/2) [(3, 1), (2, 2)] 0 0).1
